import Mathlib

/-
Verification development for the bounded agent orchestration engine:
the step/retry state machine of `AgentLoop.run` (src/core/loop.py), the
sandboxed plan executor `run_python_sandbox` with its tool-call budget
(src/modules/action.py), and the similarity-based conversation history
cache `ConversationHistory` (src/agent.py).

The Python code is shallowly embedded: the external collaborators
(perception, plan generation, tool dispatch) are abstracted as inputs
supplied per inner-loop pass, while the control flow, the marker
classification of sandbox results, the budgets and the history search
are translated operation by operation from the source.
-/

namespace AgentSpec

/-! ### Python string primitives used by the embedded code -/

/-- Python whitespace class used by `str.strip` and the regex class. -/
def isPySpace (c : Char) : Bool :=
  c = ' ' || c = '\t' || c = '\n' || c = '\r' || c = '\x0b' || c = '\x0c'

/-- `str.strip()` on the character list: drop whitespace from both ends. -/
def pyStripList (cs : List Char) : List Char :=
  ((cs.dropWhile isPySpace).reverse.dropWhile isPySpace).reverse

/-- `str.strip()`. -/
def pyStrip (s : String) : String :=
  String.mk (pyStripList s.data)

/-- `str.lower()` (ASCII case folding, which covers every string the
embedded code compares). -/
def toLowerStr (s : String) : String :=
  String.mk (s.data.map Char.toLower)

/-- `s.startswith(pat)`. -/
def strStarts (s pat : String) : Bool :=
  pat.data.isPrefixOf s.data

/-- Substring containment on character lists, `pat in s` for Python. -/
def containsSubList (pat : List Char) : List Char → Bool
  | [] => pat.isPrefixOf []
  | c :: rest => pat.isPrefixOf (c :: rest) || containsSubList pat rest

/-- `pat in s` for Python strings. -/
def containsStr (s pat : String) : Bool :=
  containsSubList pat.data s.data

/-! ### The solve-plan regex of `AgentLoop.run` (loop.py line 126)

The plan classifier is the Python regex
`^\s*(async\s+)?def\s+solve\s*\(` with `re.MULTILINE`: from the string
start or from any position just after a newline, optional whitespace,
an optional `async` followed by at least one whitespace, then `def`,
whitespace, `solve`, optional whitespace and an opening parenthesis. -/

/-- Drop leading Python whitespace (the regex `\s*`). -/
def dropSpaces (cs : List Char) : List Char :=
  cs.dropWhile isPySpace

/-- Match a literal, returning the rest on success. -/
def matchLit : List Char → List Char → Option (List Char)
  | [], cs => some cs
  | _ :: _, [] => none
  | p :: ps, c :: cs => if p = c then matchLit ps cs else none

/-- The regex `\s+`: at least one whitespace character. -/
def matchSpaces1 (cs : List Char) : Option (List Char) :=
  match cs with
  | [] => none
  | c :: rest => if isPySpace c then some (dropSpaces rest) else none

/-- Match `def\s+solve\s*\(` at the current position. -/
def matchDefSolve (cs : List Char) : Bool :=
  match matchLit "def".data cs with
  | none => false
  | some r1 =>
    match matchSpaces1 r1 with
    | none => false
    | some r2 =>
      match matchLit "solve".data r2 with
      | none => false
      | some r3 =>
        match dropSpaces r3 with
        | '(' :: _ => true
        | _ => false

/-- Match `\s*(async\s+)?def\s+solve\s*\(` at the current position. -/
def solveAt (cs : List Char) : Bool :=
  let cs1 := dropSpaces cs
  (match matchLit "async".data cs1 with
   | some r =>
     match matchSpaces1 r with
     | some r2 => matchDefSolve r2
     | none => false
   | none => false)
  || matchDefSolve cs1

/-- Try the anchor at every position following a newline. -/
def solveAfterNewline : List Char → Bool
  | [] => false
  | '\n' :: rest => solveAt rest || solveAfterNewline rest
  | _ :: rest => solveAfterNewline rest

/-- `re.search(r"^\s*(async\s+)?def\s+solve\s*\(", plan, re.MULTILINE)`
is truthy: the anchor fires at the string start or after any newline. -/
def matchesSolvePattern (plan : String) : Bool :=
  solveAt plan.data || solveAfterNewline plan.data

/-! ### The orchestration loop `AgentLoop.run` (loop.py lines 56-197)

One inner-loop pass consumes one `PassInput`: whether any tools were
selected for the chosen servers, the text the plan generator returned,
and the string `run_python_sandbox` would return for that plan. Those
three are the external collaborators of the loop; everything else is
the translated control flow. -/

/-- The value `run_python_sandbox` hands back: the executor always
returns a string, but the loop still guards with `isinstance`. -/
inductive SandboxRet where
  | str (s : String)
  | nonStr
deriving Repr, DecidableEq

/-- Externally supplied data for one inner-loop pass. -/
structure PassInput where
  hasTools : Bool
  plan : String
  sandboxRet : SandboxRet
deriving Repr, DecidableEq

/-- How one inner-loop pass was resolved. -/
inductive PassEvent where
  | guardExceeded
  | noTools
  | invalidPlan
  | finalAnswer
  | furtherProcessing
  | sandboxError
  | rawTerminal
  | rawRetry
  | nonStringRetry
deriving Repr, DecidableEq

/-- Status of the `solve_sandbox` subtask entry logged for a pass. -/
inductive SubtaskStatus where
  | pending
  | success
  | failure
deriving Repr, DecidableEq

/-- Observable record of one inner-loop pass: the value of
`total_iterations` during the pass, the value of `step`, whether
perception was computed fresh (as opposed to reusing the cached one),
the branch taken, and the subtask status left behind (`none` when the
sandbox was never invoked). -/
structure PassRecord where
  iter : Nat
  step : Nat
  perceptionComputed : Bool
  event : PassEvent
  subtask : Option SubtaskStatus
deriving Repr, DecidableEq

/-- Mutable state threaded through `run`: `total_iterations`, whether
`user_input_override` is set, whether `last_perception` and
`last_selected_servers` are cached, and the chronological pass log. -/
structure LoopState where
  totalIter : Nat
  overridePending : Bool
  cachedPerception : Bool
  log : List PassRecord
deriving Repr, DecidableEq

/-- `True` when the pass will reuse the cached perception and consume
the override (loop.py lines 80-85). -/
def consumesOverride (st : LoopState) : Bool :=
  st.overridePending && st.cachedPerception

/-- `user_input_override` after the perception block of a pass. -/
def ovrAfter (st : LoopState) : Bool :=
  st.overridePending && !consumesOverride st

/-- Whether perception is computed fresh on this pass. -/
def pcFresh (st : LoopState) : Bool :=
  !consumesOverride st

/-- Loop.py line 73. -/
def maxIterationsAnswer : String := "FINAL_ANSWER: [Max iterations reached]"

/-- Loop.py line 196. -/
def maxStepsAnswer : String := "FINAL_ANSWER: [Max steps reached]"

/-- Loop.py line 164. -/
def executionFailedAnswer : String := "FINAL_ANSWER: [Execution failed]"

def finalMarker : String := "FINAL_ANSWER:"

def fprMarker : String := "FURTHER_PROCESSING_REQUIRED:"

def errMarker : String := "[sandbox error:"

/-- Result of the inner retry loop for one step: either the whole run
returns (`done`), or the step ends and the outer `for` advances. -/
inductive InnerResult where
  | done (answer : String) (st : LoopState)
  | stepEnd (st : LoopState)
deriving Repr, DecidableEq

/-- The inner retry loop (`while lifelines_left >= 0`, loop.py lines
68-193), with fuel `lifelines_left + 1`: every branch that does not
return or break decrements `lifelines_left`.

Branches, in source order: the global iteration guard (70-74),
perception reuse (77-92), the empty-tool-set break (94-97), the plan
shape test (126), and for a sandboxed plan the classification of the
stripped result string: `FINAL_ANSWER:` prefix returns (135-146),
`FURTHER_PROCESSING_REQUIRED:` prefix stores the override and breaks
(147-161), `[sandbox error:` prefix is a retryable failure (162-164),
and any other string is a success whose answer is `FINAL_ANSWER: `
followed by the text; that success returns only when the continuation
marker occurs nowhere in the text (184-189). A non-string result keeps
`success = False` and retries (168-169). A plan not matching the solve
pattern is invalid and retries (190-193). -/
def innerLoop (env : Nat → PassInput) (maxSteps step : Nat) :
    Nat → LoopState → InnerResult
  | 0, st => .stepEnd st
  | fuel + 1, st =>
    let ti := st.totalIter + 1
    if 2 * maxSteps < ti then
      .done maxIterationsAnswer
        ⟨ti, st.overridePending, st.cachedPerception,
          st.log ++ [⟨ti, step, false, .guardExceeded, none⟩]⟩
    else
      let ovr := ovrAfter st
      let pc := pcFresh st
      let inp := env ti
      if inp.hasTools then
        if matchesSolvePattern inp.plan then
          match inp.sandboxRet with
          | .str s0 =>
            let r := pyStrip s0
            if strStarts r finalMarker then
              .done r ⟨ti, ovr, true, st.log ++ [⟨ti, step, pc, .finalAnswer, some .success⟩]⟩
            else if strStarts r fprMarker then
              .stepEnd ⟨ti, true, true, st.log ++ [⟨ti, step, pc, .furtherProcessing, some .pending⟩]⟩
            else if strStarts r errMarker then
              innerLoop env maxSteps step fuel
                ⟨ti, ovr, true, st.log ++ [⟨ti, step, pc, .sandboxError, some .failure⟩]⟩
            else if containsStr r fprMarker then
              innerLoop env maxSteps step fuel
                ⟨ti, ovr, true, st.log ++ [⟨ti, step, pc, .rawRetry, some .success⟩]⟩
            else
              .done (finalMarker ++ " " ++ r)
                ⟨ti, ovr, true, st.log ++ [⟨ti, step, pc, .rawTerminal, some .success⟩]⟩
          | .nonStr =>
            innerLoop env maxSteps step fuel
              ⟨ti, ovr, true, st.log ++ [⟨ti, step, pc, .nonStringRetry, some .failure⟩]⟩
        else
          innerLoop env maxSteps step fuel
            ⟨ti, ovr, true, st.log ++ [⟨ti, step, pc, .invalidPlan, none⟩]⟩
      else
        .stepEnd ⟨ti, ovr, true, st.log ++ [⟨ti, step, pc, .noTools, none⟩]⟩

/-- Final observable outcome of `run`. -/
structure RunResult where
  answer : String
  state : LoopState
deriving Repr, DecidableEq

/-- The outer `for step in range(max_steps)` loop (loop.py line 63),
with `remaining` steps left to run; falling off the end yields the
max-steps sentinel (lines 195-197). -/
def runFrom (env : Nat → PassInput) (maxSteps lifelines : Nat) :
    Nat → Nat → LoopState → RunResult
  | _, 0, st => ⟨maxStepsAnswer, st⟩
  | step, remaining + 1, st =>
    match innerLoop env maxSteps step (lifelines + 1) st with
    | .done ans st' => ⟨ans, st'⟩
    | .stepEnd st' => runFrom env maxSteps lifelines (step + 1) remaining st'

/-- `AgentLoop.run` with strategy parameters `maxSteps` and
`lifelines = max_lifelines_per_step`, driven by the per-pass external
inputs `env` (indexed by the value of `total_iterations`). -/
def runModel (env : Nat → PassInput) (maxSteps lifelines : Nat) : RunResult :=
  runFrom env maxSteps lifelines 0 maxSteps ⟨0, false, false, []⟩

/-! ### Pass environments used by the claims about `run` -/

def planSolve : String := "def solve():\n    return 1"

def envContinuation : Nat → PassInput :=
  fun _ => ⟨true, planSolve, .str "FURTHER_PROCESSING_REQUIRED: partial data"⟩

def envInvalid : Nat → PassInput :=
  fun _ => ⟨true, "I cannot produce a plan", .str ""⟩

def envFinalString : Nat → PassInput :=
  fun _ => ⟨true, "FINAL_ANSWER: 42", .str "unused"⟩

def envRawEmbedded : Nat → PassInput :=
  fun _ => ⟨true, planSolve, .str "abc FURTHER_PROCESSING_REQUIRED: x"⟩

def envRaw : Nat → PassInput :=
  fun _ => ⟨true, planSolve, .str "  some raw answer  "⟩

/-- Every pass sees a nonempty tool set and a plan that neither defines
`solve` nor carries the final-answer marker: the invalid plan shape. -/
def invalidEnv (env : Nat → PassInput) : Prop :=
  ∀ i, (env i).hasTools = true ∧ matchesSolvePattern (env i).plan = false ∧
    containsStr (env i).plan finalMarker = false

/-- Every pass sees a nonempty tool set and a `solve`-defining plan whose
sandbox result is a continuation-marked string. -/
def continuationEnv (env : Nat → PassInput) : Prop :=
  ∀ i, (env i).hasTools = true ∧ matchesSolvePattern (env i).plan = true ∧
    ∃ s, (env i).sandboxRet = .str s ∧
      strStarts (pyStrip s) finalMarker = false ∧
      strStarts (pyStrip s) fprMarker = true

/-! ### Invariant lemmas for the retry loop under the two pathological
environments of the testable properties -/

/-- Under an always-invalid plan generator, a retry loop whose passes all
stay at or below the iteration cap burns its whole lifeline budget and
ends the step, advancing `total_iterations` by exactly the fuel. -/
theorem innerLoop_invalid_le (env : Nat → PassInput) (N step : Nat)
    (henv : invalidEnv env) :
    ∀ fuel st, st.totalIter + fuel ≤ 2 * N →
      ∃ st', innerLoop env N step fuel st = .stepEnd st' ∧
        st'.totalIter = st.totalIter + fuel := by
  intro fuel
  induction fuel with
  | zero => intro st _; exact ⟨st, rfl, rfl⟩
  | succ f ih =>
    intro st h
    have hg : ¬ 2 * N < st.totalIter + 1 := by omega
    obtain ⟨ht, hp, -⟩ := henv (st.totalIter + 1)
    obtain ⟨st', heq, hti⟩ :=
      ih ⟨st.totalIter + 1, ovrAfter st, true,
        st.log ++ [⟨st.totalIter + 1, step, pcFresh st, .invalidPlan, none⟩]⟩ (by simp; omega)
    refine ⟨st', ?_, by simp at hti; omega⟩
    rw [innerLoop]
    simp only [hg, if_false, ht, hp, if_true, Bool.false_eq_true, if_false]
    exact heq

/-- Under an always-invalid plan generator, a retry loop with enough fuel
to cross the iteration cap terminates the run with the max-iterations
sentinel, with `total_iterations` stopping at `2 * N + 1`. -/
theorem innerLoop_invalid_guard (env : Nat → PassInput) (N step : Nat)
    (henv : invalidEnv env) :
    ∀ fuel st, st.totalIter ≤ 2 * N → 2 * N < st.totalIter + fuel →
      ∃ st', innerLoop env N step fuel st = .done maxIterationsAnswer st' ∧
        st'.totalIter = 2 * N + 1 := by
  intro fuel
  induction fuel with
  | zero => intro st h1 h2; omega
  | succ f ih =>
    intro st h1 h2
    by_cases hg : 2 * N < st.totalIter + 1
    · refine ⟨⟨st.totalIter + 1, st.overridePending, st.cachedPerception,
        st.log ++ [⟨st.totalIter + 1, step, false, .guardExceeded, none⟩]⟩, ?_, by simp; omega⟩
      rw [innerLoop]
      simp only [hg, if_true]
    · obtain ⟨ht, hp, -⟩ := henv (st.totalIter + 1)
      obtain ⟨st', heq, hti⟩ :=
        ih ⟨st.totalIter + 1, ovrAfter st, true,
          st.log ++ [⟨st.totalIter + 1, step, pcFresh st, .invalidPlan, none⟩]⟩
          (by simp; omega) (by simp; omega)
      refine ⟨st', ?_, hti⟩
      rw [innerLoop]
      simp only [hg, if_false, ht, hp, if_true, Bool.false_eq_true, if_false]
      exact heq

/-- Outer loop under an always-invalid plan generator, when the remaining
steps fit under the iteration cap: every step burns `L + 1` passes and
the run falls off the end with the max-steps sentinel. -/
theorem runFrom_invalid_le (env : Nat → PassInput) (N L : Nat)
    (henv : invalidEnv env) :
    ∀ r step st, st.totalIter + r * (L + 1) ≤ 2 * N →
      ∃ st', runFrom env N L step r st = ⟨maxStepsAnswer, st'⟩ ∧
        st'.totalIter = st.totalIter + r * (L + 1) := by
  intro r
  induction r with
  | zero => intro step st _; exact ⟨st, rfl, by simp⟩
  | succ q ih =>
    intro step st h
    rw [Nat.succ_mul] at h
    obtain ⟨st1, h1, hti1⟩ := innerLoop_invalid_le env N step henv (L + 1) st (by omega)
    obtain ⟨st', h2, hti2⟩ := ih (step + 1) st1 (by omega)
    refine ⟨st', ?_, by rw [Nat.succ_mul]; omega⟩
    rw [runFrom, h1]
    exact h2

/-- Outer loop under an always-invalid plan generator, when the remaining
steps overshoot the iteration cap: the guard fires and the run terminates
with the max-iterations sentinel at `total_iterations = 2 * N + 1`. -/
theorem runFrom_invalid_guard (env : Nat → PassInput) (N L : Nat)
    (henv : invalidEnv env) :
    ∀ r step st, st.totalIter ≤ 2 * N → 2 * N < st.totalIter + r * (L + 1) →
      ∃ st', runFrom env N L step r st = ⟨maxIterationsAnswer, st'⟩ ∧
        st'.totalIter = 2 * N + 1 := by
  intro r
  induction r with
  | zero => intro step st h1 h2; omega
  | succ q ih =>
    intro step st h1 h2
    rw [Nat.succ_mul q (L + 1)] at h2
    by_cases hfit : st.totalIter + (L + 1) ≤ 2 * N
    · obtain ⟨st1, hs1, hti1⟩ := innerLoop_invalid_le env N step henv (L + 1) st hfit
      obtain ⟨st', h2', hti2⟩ := ih (step + 1) st1 (by omega) (by omega)
      refine ⟨st', ?_, hti2⟩
      rw [runFrom, hs1]
      exact h2'
    · obtain ⟨st', hs, hti⟩ :=
        innerLoop_invalid_guard env N step henv (L + 1) st h1 (by omega)
      refine ⟨st', ?_, hti⟩
      rw [runFrom, hs]

/-- Under an always-continuing plan (`FURTHER_PROCESSING_REQUIRED`
sandbox result), one pass at or below the iteration cap stores the
override and breaks out of the retry loop after a single iteration. -/
theorem innerLoop_continuation (env : Nat → PassInput) (N step L : Nat)
    (henv : continuationEnv env) :
    ∀ st, st.totalIter + 1 ≤ 2 * N →
      ∃ st', innerLoop env N step (L + 1) st = .stepEnd st' ∧
        st'.totalIter = st.totalIter + 1 ∧ st'.overridePending = true := by
  intro st h
  have hg : ¬ 2 * N < st.totalIter + 1 := by omega
  obtain ⟨ht, hp, s, hs, hf, hfpr⟩ := henv (st.totalIter + 1)
  refine ⟨⟨st.totalIter + 1, true, true,
    st.log ++ [⟨st.totalIter + 1, step, pcFresh st, .furtherProcessing, some .pending⟩]⟩,
    ?_, by simp, by simp⟩
  rw [innerLoop]
  simp only [hg, if_false, ht, hp, if_true, hs, hf, Bool.false_eq_true, if_false, hfpr]

/-- Outer loop under an always-continuing plan: every step consumes
exactly one iteration (the `break` advances the step counter), so `r`
remaining steps consume `r` iterations and end with the max-steps
sentinel provided the cap is never crossed. -/
theorem runFrom_continuation (env : Nat → PassInput) (N L : Nat)
    (henv : continuationEnv env) :
    ∀ r step st, st.totalIter + r ≤ 2 * N →
      ∃ st', runFrom env N L step r st = ⟨maxStepsAnswer, st'⟩ ∧
        st'.totalIter = st.totalIter + r := by
  intro r
  induction r with
  | zero => intro step st _; exact ⟨st, rfl, by simp⟩
  | succ q ih =>
    intro step st h
    obtain ⟨st1, hs1, hti1, -⟩ := innerLoop_continuation env N step L henv st (by omega)
    obtain ⟨st', h2, hti2⟩ := ih (step + 1) st1 (by omega)
    refine ⟨st', ?_, by omega⟩
    rw [runFrom, hs1]
    exact h2

/-! ### Claims C1, C2, C3, C4, C7 about `AgentLoop.run` -/

/-- C1: the claim says a continuation-marked sandbox outcome makes the
loop re-enter the *same* step index, the step counter advancing only
when a step completes without requesting continuation. The code does
the opposite: the `break` on line 161 leaves the inner `while`, so the
outer `for` advances to the next step index. With two steps and an
always-continuing plan, the pass after the continuation of step 0 runs
at step index 1 (reusing the cached perception via the stored
override), and the run falls off the end of the step range. -/
theorem C1_continuation_advances_step :
    runModel envContinuation 2 1 =
      ⟨maxStepsAnswer,
        ⟨2, true, true,
          [⟨1, 0, true, .furtherProcessing, some .pending⟩,
           ⟨2, 1, false, .furtherProcessing, some .pending⟩]⟩⟩ := by decide

/-- C2 is refuted as stated: with `max_steps = 1` and `lifelines = 2`,
an always-invalid plan generator does not end with the max-steps
sentinel after `N * (L + 1) = 3` iterations; the global iteration guard
(cap `2 * N = 2`) fires first and the run ends with the max-iterations
sentinel. -/
theorem C2_invalid_termination_counterexample :
    (runModel envInvalid 1 2).answer = maxIterationsAnswer ∧
    maxIterationsAnswer ≠ maxStepsAnswer ∧
    (runModel envInvalid 1 2).state.totalIter = 3 := by decide

/-- C2 (amended): under an always-invalid plan generator the run
terminates after exactly `min (N * (L+1)) (2 * N + 1)` inner
iterations: with the max-steps sentinel after `N * (L + 1)` iterations
whenever `N * (L + 1) ≤ 2 * N` (in particular whenever `L ≤ 1`), and
otherwise with the max-iterations sentinel at iteration `2 * N + 1`,
because the global iteration guard preempts the lifeline budget. -/
theorem C2_invalid_termination (N L : Nat) (env : Nat → PassInput)
    (henv : invalidEnv env) :
    (N * (L + 1) ≤ 2 * N →
      (runModel env N L).answer = maxStepsAnswer ∧
      (runModel env N L).state.totalIter = N * (L + 1)) ∧
    (2 * N < N * (L + 1) →
      (runModel env N L).answer = maxIterationsAnswer ∧
      (runModel env N L).state.totalIter = 2 * N + 1) := by
  constructor
  · intro h
    obtain ⟨st', heq, hti⟩ :=
      runFrom_invalid_le env N L henv N 0 ⟨0, false, false, []⟩ (by simpa using h)
    rw [runModel, heq]
    simpa using hti
  · intro h
    obtain ⟨st', heq, hti⟩ :=
      runFrom_invalid_guard env N L henv N 0 ⟨0, false, false, []⟩ (by simp) (by simpa using h)
    rw [runModel, heq]
    simpa using hti

/-- Witness for C2 (amended) at `N = 2`, `L = 0` and the concrete
always-invalid environment: two iterations, max-steps sentinel. -/
theorem C2_invalid_termination_witness :
    (runModel envInvalid 2 0).answer = maxStepsAnswer ∧
    (runModel envInvalid 2 0).state.totalIter = 2 * (0 + 1) :=
  (C2_invalid_termination 2 0 envInvalid
    (fun _ => ⟨rfl, (by decide : matchesSolvePattern "I cannot produce a plan" = false),
      (by decide : containsStr "I cannot produce a plan" finalMarker = false)⟩)).1 (by omega)

/-- C3: the claim (and the intent documented by the comment `# Step
will continue` and the `Step n continues` log message on lines 159-161)
says an always-continuing plan keeps re-entering the same step until
the global iteration guard fires at iteration `2 * N + 1` with the
max-iterations sentinel. Because the `break` advances the outer step
counter instead, the code terminates after exactly `N` iterations with
the max-steps sentinel, and the guard never fires: each continuation
consumes a whole step. -/
theorem C3_continuation_terminates_at_N (N L : Nat) (env : Nat → PassInput)
    (henv : continuationEnv env) :
    (runModel env N L).answer = maxStepsAnswer ∧
    (runModel env N L).state.totalIter = N := by
  obtain ⟨st', heq, hti⟩ :=
    runFrom_continuation env N L henv N 0 ⟨0, false, false, []⟩ (by simp; omega)
  rw [runModel, heq]
  simpa using hti

/-- Witness for C3 at `N = 1`, `L = 0` and the concrete
always-continuing environment: one iteration, max-steps sentinel
(the claim predicted the max-iterations sentinel at iteration 3). -/
theorem C3_continuation_terminates_at_N_witness :
    (runModel envContinuation 1 0).answer = maxStepsAnswer ∧
    (runModel envContinuation 1 0).state.totalIter = 1 :=
  C3_continuation_terminates_at_N 1 0 envContinuation
    (fun _ => ⟨rfl, (by decide : matchesSolvePattern planSolve = true),
      "FURTHER_PROCESSING_REQUIRED: partial data", rfl,
      (by decide : strStarts (pyStrip "FURTHER_PROCESSING_REQUIRED: partial data") finalMarker = false),
      (by decide : strStarts (pyStrip "FURTHER_PROCESSING_REQUIRED: partial data") fprMarker = true)⟩)

/-- C4 is refuted as stated: a bare final-answer plan (`FINAL_ANSWER:
42`, which does not define `solve`) is not treated as an immediate
final outcome. The pass takes the invalid-plan branch (line 190): no
sandbox subtask is logged, a lifeline is consumed, and the run ends
with the max-steps sentinel instead of the plan text. -/
theorem C4_final_string_counterexample :
    matchesSolvePattern "FINAL_ANSWER: 42" = false ∧
    containsStr "FINAL_ANSWER: 42" finalMarker = true ∧
    runModel envFinalString 1 0 =
      ⟨maxStepsAnswer, ⟨1, false, true, [⟨1, 0, true, .invalidPlan, none⟩]⟩⟩ := by decide

/-- C4 (amended): a plan that carries the final-answer marker but does
not match the solve-definition pattern is handled by the invalid-plan
branch: the Sandbox Executor is not invoked (no subtask entry), one
lifeline is consumed, and the loop simply retries — it does not
terminate the run with that answer. -/
theorem C4_final_string_plan_is_invalid (env : Nat → PassInput)
    (N step fuel : Nat) (st : LoopState)
    (hg : st.totalIter + 1 ≤ 2 * N)
    (ht : (env (st.totalIter + 1)).hasTools = true)
    (hp : matchesSolvePattern (env (st.totalIter + 1)).plan = false)
    (_hf : containsStr (env (st.totalIter + 1)).plan finalMarker = true) :
    innerLoop env N step (fuel + 1) st =
      innerLoop env N step fuel
        ⟨st.totalIter + 1, ovrAfter st, true,
          st.log ++ [⟨st.totalIter + 1, step, pcFresh st, .invalidPlan, none⟩]⟩ := by
  have hg' : ¬ 2 * N < st.totalIter + 1 := by omega
  rw [innerLoop]
  simp only [hg', if_false, ht, hp, if_true, Bool.false_eq_true]

/-- Witness for C4 (amended): the bare final-answer plan at the first
pass of a fresh run consumes the lifeline and recurses. -/
theorem C4_final_string_plan_is_invalid_witness :
    innerLoop envFinalString 1 0 (0 + 1) ⟨0, false, false, []⟩ =
      innerLoop envFinalString 1 0 0
        ⟨0 + 1, ovrAfter ⟨0, false, false, []⟩, true,
          [] ++ [⟨0 + 1, 0, pcFresh ⟨0, false, false, []⟩, .invalidPlan, none⟩]⟩ :=
  C4_final_string_plan_is_invalid envFinalString 1 0 0 ⟨0, false, false, []⟩
    (by decide) rfl (by decide) (by decide)

/-- C7 is refuted as stated: a sandbox result that starts with none of
the recognized markers but *contains* the continuation marker later in
the text is recorded as a successful subtask, yet line 184 tests
substring containment, so the run does not terminate with it: a
lifeline is consumed and the run here ends with the max-steps sentinel
rather than `FINAL_ANSWER: abc FURTHER_PROCESSING_REQUIRED: x`. -/
theorem C7_raw_result_counterexample :
    runModel envRawEmbedded 1 0 =
      ⟨maxStepsAnswer, ⟨1, false, true, [⟨1, 0, true, .rawRetry, some .success⟩]⟩⟩ ∧
    maxStepsAnswer ≠ "FINAL_ANSWER: abc FURTHER_PROCESSING_REQUIRED: x" := by decide

/-- C7 (amended): a sandbox result string starting with none of the
recognized markers is recorded as a successful subtask and, *provided
the continuation marker occurs nowhere in the text*, the run terminates
immediately with the text prefixed by `FINAL_ANSWER: `. (When the
continuation marker occurs mid-text the subtask is still recorded as a
success but the outcome is retried, consuming a lifeline.) -/
theorem C7_raw_result_terminal (env : Nat → PassInput)
    (N step fuel : Nat) (st : LoopState) (s : String)
    (hg : st.totalIter + 1 ≤ 2 * N)
    (ht : (env (st.totalIter + 1)).hasTools = true)
    (hp : matchesSolvePattern (env (st.totalIter + 1)).plan = true)
    (hs : (env (st.totalIter + 1)).sandboxRet = .str s)
    (h1 : strStarts (pyStrip s) finalMarker = false)
    (h2 : strStarts (pyStrip s) fprMarker = false)
    (h3 : strStarts (pyStrip s) errMarker = false)
    (h4 : containsStr (pyStrip s) fprMarker = false) :
    innerLoop env N step (fuel + 1) st =
      .done (finalMarker ++ " " ++ pyStrip s)
        ⟨st.totalIter + 1, ovrAfter st, true,
          st.log ++ [⟨st.totalIter + 1, step, pcFresh st, .rawTerminal, some .success⟩]⟩ := by
  have hg' : ¬ 2 * N < st.totalIter + 1 := by omega
  rw [innerLoop]
  simp only [hg', if_false, ht, hp, if_true, hs, h1, h2, h3, h4, Bool.false_eq_true]

/-- Witness for C7 (amended): a raw sandbox result with surrounding
whitespace terminates the run at once with the stripped text prefixed
by the final marker, logged as a successful subtask. -/
theorem C7_raw_result_terminal_witness :
    innerLoop envRaw 1 0 (0 + 1) ⟨0, false, false, []⟩ =
      .done (finalMarker ++ " " ++ pyStrip "  some raw answer  ")
        ⟨0 + 1, ovrAfter ⟨0, false, false, []⟩, true,
          [] ++ [⟨0 + 1, 0, pcFresh ⟨0, false, false, []⟩, .rawTerminal, some .success⟩]⟩ :=
  C7_raw_result_terminal envRaw 1 0 0 ⟨0, false, false, []⟩ "  some raw answer  "
    (by decide) rfl (by decide) rfl (by decide) (by decide) (by decide) (by decide)

/-! ### The sandbox executor `run_python_sandbox` (action.py lines 36-100)

The executor compiles the plan, looks up `solve`, invokes it (awaiting
when asynchronous) and normalizes the return value; the whole body sits
in a `try` whose handler maps any exception message `m` to the string
`[sandbox error: m]`. Python values returned by `solve` are embedded as
`PyValue`; the `str` and `json.dumps` renderings are reproduced for the
value shapes such plans return. -/

/-- A Python value as returned by a `solve` plan. -/
inductive PyValue where
  | pyNone
  | pyBool (b : Bool)
  | pyInt (n : Int)
  | pyStr (s : String)
  | pyList (xs : List PyValue)
  | pyDict (fields : List (String × PyValue))

mutual

/-- Python `repr` for the embedded values (string quoting simplified to
bare single quotes, which covers the strings these plans produce). -/
def pyReprOf : PyValue → String
  | .pyNone => "None"
  | .pyBool true => "True"
  | .pyBool false => "False"
  | .pyInt n => toString n
  | .pyStr s => "\x27" ++ s ++ "\x27"
  | .pyList xs => "[" ++ String.intercalate ", " (pyReprList xs) ++ "]"
  | .pyDict fs => "\x7b" ++ String.intercalate ", " (pyReprFields fs) ++ "\x7d"

def pyReprList : List PyValue → List String
  | [] => []
  | v :: vs => pyReprOf v :: pyReprList vs

def pyReprFields : List (String × PyValue) → List String
  | [] => []
  | (k, v) :: fs => ("\x27" ++ k ++ "\x27: " ++ pyReprOf v) :: pyReprFields fs

end

/-- Python `str` (an f-string interpolation `f"{v}"`): identity on
strings, `repr` on everything else. -/
def pyStrOf : PyValue → String
  | .pyStr s => s
  | v => pyReprOf v

mutual

/-- `json.dumps` with default separators. -/
def jsonDumps : PyValue → String
  | .pyNone => "null"
  | .pyBool true => "true"
  | .pyBool false => "false"
  | .pyInt n => toString n
  | .pyStr s => "\"" ++ s ++ "\""
  | .pyList xs => "[" ++ String.intercalate ", " (jsonDumpsList xs) ++ "]"
  | .pyDict fs => "\x7b" ++ String.intercalate ", " (jsonDumpsFields fs) ++ "\x7d"

def jsonDumpsList : List PyValue → List String
  | [] => []
  | v :: vs => jsonDumps v :: jsonDumpsList vs

def jsonDumpsFields : List (String × PyValue) → List String
  | [] => []
  | (k, v) :: fs => ("\"" ++ k ++ "\": " ++ jsonDumps v) :: jsonDumpsFields fs

end

/-- Dictionary key lookup, `key in d` / `d[key]`. -/
def lookupKey (fields : List (String × PyValue)) (k : String) : Option PyValue :=
  match fields with
  | [] => none
  | (k', v) :: rest => if k' = k then some v else lookupKey rest k

/-- Result normalization of `run_python_sandbox` (action.py lines
84-91): a dict with a `result` key yields `f"{result['result']}"`, any
other dict is `json.dumps`ed, a list is space-joined element text, and
anything else is `f"{result}"`. -/
def normalizeResult : PyValue → String
  | .pyDict fields =>
    match lookupKey fields "result" with
    | some v => pyStrOf v
    | none => jsonDumps (.pyDict fields)
  | .pyList xs => String.intercalate " " (xs.map pyStrOf)
  | v => pyStrOf v

/-- Abstract behaviour of one plan inside the sandbox `try` block: the
`exec`/`compile` call raises, no `solve` binding is produced, `solve()`
raises, or `solve()` returns a value. -/
inductive PlanExec where
  | compileError (msg : String)
  | noSolve
  | solveRaises (msg : String)
  | solveReturns (v : PyValue)

/-- Message of the `ValueError` raised at action.py line 76. -/
def noSolveMsg : String := "No solve() function found in plan."

/-- The body of the `try` block (action.py lines 47-91): each failure
mode surfaces as the raised exception's message, a successful `solve`
call flows into result normalization. -/
def sandboxBody : PlanExec → Except String String
  | .compileError m => .error m
  | .noSolve => .error noSolveMsg
  | .solveRaises m => .error m
  | .solveReturns v => .ok (normalizeResult v)

/-- `run_python_sandbox`: the `except Exception` handler (lines 98-100)
maps any raised message `m` to `[sandbox error: m]`; the function is
total — no exception reaches the caller. -/
def runPythonSandbox (p : PlanExec) : String :=
  match sandboxBody p with
  | .ok s => s
  | .error m => "[sandbox error: " ++ m ++ "]"

/-! ### The budget-limited tool proxy `SandboxMCP` (action.py 36-62) -/

/-- Action.py line 36. -/
def MAX_TOOL_CALLS_PER_PLAN : Nat := 5

/-- One tool invocation a plan issues through the proxy. -/
structure ToolCall where
  toolName : String
  args : String
deriving Repr, DecidableEq

/-- Proxy state: `call_count` plus the calls actually forwarded to the
dispatcher, in dispatch order. -/
structure SandboxMCPState where
  callCount : Nat
  dispatched : List ToolCall
deriving Repr, DecidableEq

/-- Message of the `RuntimeError` raised at action.py line 57. -/
def budgetErrorMsg : String :=
  "Exceeded max tool calls (" ++ toString MAX_TOOL_CALLS_PER_PLAN ++ ") in solve() plan."

/-- `SandboxMCP.call_tool`: increment `call_count`, raise the budget
error when it exceeds the budget (the increment survives the raise, the
dispatcher is not reached), otherwise forward the call. -/
def callTool (st : SandboxMCPState) (c : ToolCall) : SandboxMCPState × Option String :=
  let cnt := st.callCount + 1
  if MAX_TOOL_CALLS_PER_PLAN < cnt then
    (⟨cnt, st.dispatched⟩, some budgetErrorMsg)
  else
    (⟨cnt, st.dispatched ++ [c]⟩, none)

/-- A plan body that issues its tool calls in sequence: execution stops
at the first raised error (which propagates out of `solve`). -/
def runCalls : List ToolCall → SandboxMCPState → SandboxMCPState × Option String
  | [], st => (st, none)
  | c :: rest, st =>
    match callTool st c with
    | (st', some m) => (st', some m)
    | (st', none) => runCalls rest st'

/-- The `PlanExec` behaviour of a plan whose `solve` issues the given
tool calls in order and, when none raises, returns `ret`. -/
def planWithCalls (calls : List ToolCall) (ret : PyValue) : PlanExec :=
  match (runCalls calls ⟨0, []⟩).2 with
  | some m => .solveRaises m
  | none => .solveReturns ret

/-- Fresh proxy state injected per `run_python_sandbox` call. -/
def freshProxy : SandboxMCPState := ⟨0, []⟩

theorem runCalls_ok (calls : List ToolCall) :
    ∀ st : SandboxMCPState, st.callCount + calls.length ≤ MAX_TOOL_CALLS_PER_PLAN →
      runCalls calls st = (⟨st.callCount + calls.length, st.dispatched ++ calls⟩, none) := by
  induction calls with
  | nil => intro st _; simp [runCalls]
  | cons c rest ih =>
    intro st h
    simp only [List.length_cons] at h
    rw [runCalls, callTool]
    have hnb : ¬ MAX_TOOL_CALLS_PER_PLAN < st.callCount + 1 := by omega
    simp only [hnb, if_false]
    rw [ih ⟨st.callCount + 1, st.dispatched ++ [c]⟩ (by simp; omega)]
    simp
    omega

theorem runCalls_overflow (calls : List ToolCall) :
    ∀ st : SandboxMCPState, st.callCount ≤ MAX_TOOL_CALLS_PER_PLAN →
      MAX_TOOL_CALLS_PER_PLAN < st.callCount + calls.length →
      runCalls calls st =
        (⟨MAX_TOOL_CALLS_PER_PLAN + 1,
          st.dispatched ++ calls.take (MAX_TOOL_CALLS_PER_PLAN - st.callCount)⟩,
         some budgetErrorMsg) := by
  induction calls with
  | nil => intro st h1 h2; simp at h2; omega
  | cons c rest ih =>
    intro st h1 h2
    simp only [List.length_cons] at h2
    rw [runCalls, callTool]
    by_cases hb : MAX_TOOL_CALLS_PER_PLAN < st.callCount + 1
    · have hcc : st.callCount = MAX_TOOL_CALLS_PER_PLAN := by omega
      simp only [hb, if_true]
      rw [hcc]
      simp
    · simp only [hb, if_false]
      rw [ih ⟨st.callCount + 1, st.dispatched ++ [c]⟩ (by simp; omega) (by simp; omega)]
      have htake : MAX_TOOL_CALLS_PER_PLAN - st.callCount =
          (MAX_TOOL_CALLS_PER_PLAN - (st.callCount + 1)) + 1 := by omega
      simp [htake]

/-! ### Claims C5, C6, C10 about the sandbox executor -/

/-- C5: with the default budget of 5, a plan issuing more than 5 tool
calls through a fresh proxy has exactly its first 5 calls dispatched,
in issue order, before the 6th invocation raises the budget-exceeded
failure, which `run_python_sandbox` maps to the bracketed sandbox-error
outcome; a plan issuing at most 5 calls never hits the budget and has
all its calls dispatched in order. -/
theorem C5_tool_call_budget (calls : List ToolCall) (ret : PyValue) :
    (MAX_TOOL_CALLS_PER_PLAN < calls.length →
      runCalls calls freshProxy =
        (⟨MAX_TOOL_CALLS_PER_PLAN + 1, calls.take MAX_TOOL_CALLS_PER_PLAN⟩,
         some budgetErrorMsg) ∧
      runPythonSandbox (planWithCalls calls ret) =
        "[sandbox error: " ++ budgetErrorMsg ++ "]") ∧
    (calls.length ≤ MAX_TOOL_CALLS_PER_PLAN →
      runCalls calls freshProxy = (⟨calls.length, calls⟩, none)) := by
  constructor
  · intro h
    have hover := runCalls_overflow calls freshProxy (by simp [freshProxy]) (by simp [freshProxy]; omega)
    simp only [freshProxy] at hover
    constructor
    · simpa using hover
    · rw [planWithCalls, hover]
      rfl
  · intro h
    have hok := runCalls_ok calls freshProxy (by simp [freshProxy]; omega)
    simpa [freshProxy] using hok

/-- A six-call plan used to witness the budget claim. -/
def sixCalls : List ToolCall :=
  [⟨"search", "a"⟩, ⟨"fetch", "b"⟩, ⟨"convert", "c"⟩,
   ⟨"extract", "d"⟩, ⟨"rank", "e"⟩, ⟨"summarize", "f"⟩]

/-- Witness for C5: the six-call plan dispatches its first five calls
in order and fails with the budget error on the sixth. -/
theorem C5_tool_call_budget_witness :
    runCalls sixCalls freshProxy =
      (⟨MAX_TOOL_CALLS_PER_PLAN + 1, sixCalls.take MAX_TOOL_CALLS_PER_PLAN⟩,
       some budgetErrorMsg) ∧
    runPythonSandbox (planWithCalls sixCalls .pyNone) =
      "[sandbox error: " ++ budgetErrorMsg ++ "]" :=
  (C5_tool_call_budget sixCalls .pyNone).1 (by decide)

/-- C6: the executor is a total function into strings — the `except`
handler turns every raised message into the bracketed sandbox-error
string and a successful body result passes through unchanged — and a
plan with no `solve` entry point yields the sandbox-error string whose
text indicates that no solve() function was found. -/
theorem C6_sandbox_never_raises (p : PlanExec) :
    (∀ m, sandboxBody p = .error m →
      runPythonSandbox p = "[sandbox error: " ++ m ++ "]") ∧
    (∀ s, sandboxBody p = .ok s → runPythonSandbox p = s) ∧
    runPythonSandbox .noSolve = "[sandbox error: " ++ noSolveMsg ++ "]" ∧
    containsStr (toLowerStr (runPythonSandbox .noSolve)) "no solve() function found" = true := by
  refine ⟨?_, ?_, rfl, by decide⟩
  · intro m hm
    rw [runPythonSandbox, hm]
  · intro s hs
    rw [runPythonSandbox, hs]

/-- Witness for C6: a plan whose `solve` raises is mapped to the
bracketed error string carrying the exception message. -/
theorem C6_sandbox_never_raises_witness :
    runPythonSandbox (.solveRaises "division by zero") =
      "[sandbox error: " ++ "division by zero" ++ "]" :=
  (C6_sandbox_never_raises (.solveRaises "division by zero")).1 "division by zero" rfl

/-- The normalization rule exactly as the specification words it: a
mapping containing a `result` key yields the textual form of that
value, any other mapping is serialized as structured JSON text, a
sequence is joined into space-separated element text, anything else is
converted to its textual form. -/
def specNormalize (v : PyValue) : String :=
  match v with
  | .pyDict fields =>
    if (lookupKey fields "result").isSome then
      pyStrOf ((lookupKey fields "result").getD .pyNone)
    else
      jsonDumps (.pyDict fields)
  | .pyList xs => String.intercalate " " (xs.map pyStrOf)
  | v => pyStrOf v

/-- C10: the return-value normalization of `run_python_sandbox` agrees
with the specification's normalization rule on every value shape. -/
theorem C10_result_normalization (v : PyValue) :
    normalizeResult v = specNormalize v ∧
    runPythonSandbox (.solveReturns v) = specNormalize v := by
  have h : normalizeResult v = specNormalize v := by
    cases v <;> simp only [normalizeResult, specNormalize]
    case pyDict fields =>
      cases hk : lookupKey fields "result" <;> simp [hk]
  exact ⟨h, by rw [runPythonSandbox, sandboxBody, h]⟩

/-! ### ConversationHistory (agent.py lines 20-74)

Entries are the `(query, answer, timestamp)` dicts of the store.
`similarity` is `difflib.SequenceMatcher(None, a, b).ratio()` on the
lowercased, stripped strings: the Ratcliff-Obershelp total of matched
characters (recursively: the longest common block, then the totals of
the parts left of it and right of it), scaled by `2 / (len a + len b)`.
The queries compared stay far below the 200-character cutoff of the
autojunk heuristic, so the popularity filter never activates and is not
modelled. -/

structure HistoryEntry where
  query : String
  answer : String
  timestamp : String
deriving Repr, DecidableEq

/-- Length of the common prefix of two suffixes: the length of the
matching block starting at the given pair of positions. -/
def commonPfx : List Char → List Char → Nat
  | c :: cs, d :: ds => if c = d then commonPfx cs ds + 1 else 0
  | _, _ => 0

/-- All suffixes of a list, indexed by start position, beginning at
index `n`. -/
def sufsFrom (n : Nat) : List Char → List (Nat × List Char)
  | [] => [(n, [])]
  | c :: cs => (n, c :: cs) :: sufsFrom (n + 1) cs

/-- Every block `(i, j, k)`: start in `a`, start in `b`, length of the
common run starting there; listed with `i` ascending, then `j`
ascending, the scan order of `find_longest_match`. -/
def candidateBlocks (a b : List Char) : List (Nat × Nat × Nat) :=
  (sufsFrom 0 a).flatMap fun p =>
    (sufsFrom 0 b).map fun q => (p.1, q.1, commonPfx p.2 q.2)

/-- Keep the strictly longer block: a scan in candidate order retains
the first block attaining the maximal length — lowest `i`, then lowest
`j`, exactly the tie-break of `find_longest_match`. -/
def pickLonger (best cand : Nat × Nat × Nat) : Nat × Nat × Nat :=
  if best.2.2 < cand.2.2 then cand else best

/-- `SequenceMatcher.find_longest_match` over the whole strings. -/
def findLongestBlock (a b : List Char) : Nat × Nat × Nat :=
  (candidateBlocks a b).foldl pickLonger (0, 0, 0)

/-- Total number of matched characters: the longest block plus the
matches of the pieces strictly left and strictly right of it. Fuel
bounds the recursion depth; `a.length + b.length + 1` always
suffices since each recursive call strictly shrinks the total. -/
def matchesTotal : Nat → List Char → List Char → Nat
  | 0, _, _ => 0
  | fuel + 1, a, b =>
    match findLongestBlock a b with
    | (i, j, k) =>
      if k = 0 then 0
      else
        matchesTotal fuel (a.take i) (b.take j) + k +
          matchesTotal fuel (a.drop (i + k)) (b.drop (j + k))

/-- Matched-character total of `SequenceMatcher`. -/
def smMatches (a b : List Char) : Nat :=
  matchesTotal (a.length + b.length + 1) a b

/-- `SequenceMatcher.ratio()`: `2 * M / T`, and `1.0` when both
sequences are empty. -/
def smRatioOf (a b : List Char) : ℚ :=
  if a.length + b.length = 0 then 1
  else 2 * (smMatches a b : ℚ) / ((a.length : ℚ) + (b.length : ℚ))

/-- `str1.lower().strip()` as a character list. -/
def normQuery (s : String) : List Char :=
  pyStripList (s.data.map Char.toLower)

/-- `ConversationHistory.similarity` (agent.py lines 45-47). -/
def similarity (s1 s2 : String) : ℚ :=
  smRatioOf (normQuery s1) (normQuery s2)

/-- The `for entry in self.history` loop of `search_similar` with its
two accumulators `best_match` and `best_score` (agent.py lines 51-58):
an entry replaces the accumulator only when its score strictly exceeds
`best_score` *and* is at least the threshold. -/
def searchAux (query : String) (threshold : ℚ) :
    List HistoryEntry → Option HistoryEntry → ℚ → Option HistoryEntry
  | [], best, _ => best
  | e :: rest, best, bestScore =>
    if bestScore < similarity query e.query ∧ threshold ≤ similarity query e.query then
      searchAux query threshold rest (some e) (similarity query e.query)
    else
      searchAux query threshold rest best bestScore

/-- `ConversationHistory.search_similar` (agent.py lines 49-63):
`best_score` starts at `0.0`, `best_match` at `None`. -/
def search_similar (history : List HistoryEntry) (query : String) (threshold : ℚ) :
    Option HistoryEntry :=
  searchAux query threshold history none 0

/-! #### Bounds on the matched-character total -/

theorem commonPfx_le (xs : List Char) :
    ∀ ys, commonPfx xs ys ≤ xs.length ∧ commonPfx xs ys ≤ ys.length := by
  induction xs with
  | nil => intro ys; cases ys <;> simp [commonPfx]
  | cons c cs ih =>
    intro ys
    cases ys with
    | nil => simp [commonPfx]
    | cons d ds =>
      by_cases hcd : c = d
      · subst hcd
        obtain ⟨h1, h2⟩ := ih ds
        rw [commonPfx, if_pos rfl]
        simp only [List.length_cons]
        omega
      · simp [commonPfx, hcd]

theorem sufsFrom_mem (l : List Char) :
    ∀ n p, p ∈ sufsFrom n l → p.1 + p.2.length = n + l.length ∧ n ≤ p.1 := by
  induction l with
  | nil =>
    intro n p hp
    simp [sufsFrom] at hp
    simp [hp]
  | cons c cs ih =>
    intro n p hp
    rw [sufsFrom, List.mem_cons] at hp
    rcases hp with h | h
    · simp [h]
    · obtain ⟨h1, h2⟩ := ih (n + 1) p h
      simp only [List.length_cons]
      omega

theorem foldl_pickLonger_pred (P : Nat × Nat × Nat → Prop) :
    ∀ (l : List (Nat × Nat × Nat)) (init : Nat × Nat × Nat),
      P init → (∀ c ∈ l, P c) → P (l.foldl pickLonger init) := by
  intro l
  induction l with
  | nil => intro init h _; simpa using h
  | cons c rest ih =>
    intro init hinit hall
    rw [List.foldl_cons]
    refine ih (pickLonger init c) ?_ (fun x hx => hall x (List.mem_cons_of_mem c hx))
    by_cases hlt : init.2.2 < c.2.2 <;>
      simp only [pickLonger, hlt, if_true, if_false] <;>
      first
        | exact hall c (List.mem_cons_self c rest)
        | exact hinit

theorem findLongestBlock_valid (a b : List Char) :
    (findLongestBlock a b).1 + (findLongestBlock a b).2.2 ≤ a.length ∧
    (findLongestBlock a b).2.1 + (findLongestBlock a b).2.2 ≤ b.length := by
  have := foldl_pickLonger_pred
    (fun t => t.1 + t.2.2 ≤ a.length ∧ t.2.1 + t.2.2 ≤ b.length)
    (candidateBlocks a b) (0, 0, 0) (by simp)
    (by
      intro c hc
      simp only [candidateBlocks, List.mem_flatMap, List.mem_map] at hc
      obtain ⟨p, hp, q, hq, rfl⟩ := hc
      obtain ⟨hp1, -⟩ := sufsFrom_mem a 0 p hp
      obtain ⟨hq1, -⟩ := sufsFrom_mem b 0 q hq
      obtain ⟨hc1, hc2⟩ := commonPfx_le p.2 q.2
      constructor <;> simp <;> omega)
  exact this

theorem matchesTotal_le :
    ∀ fuel (a b : List Char),
      matchesTotal fuel a b ≤ a.length ∧ matchesTotal fuel a b ≤ b.length := by
  intro fuel
  induction fuel with
  | zero => intro a b; simp [matchesTotal]
  | succ f ih =>
    intro a b
    obtain ⟨hv1, hv2⟩ := findLongestBlock_valid a b
    rcases hfb : findLongestBlock a b with ⟨i, j, k⟩
    rw [hfb] at hv1 hv2
    simp only at hv1 hv2
    by_cases hk : k = 0
    · simp [matchesTotal, hfb, hk]
    · obtain ⟨hL1, hL2⟩ := ih (a.take i) (b.take j)
      obtain ⟨hR1, hR2⟩ := ih (a.drop (i + k)) (b.drop (j + k))
      have hti : (a.take i).length ≤ i := by
        simp
      have htj : (b.take j).length ≤ j := by
        simp
      have hdi : (a.drop (i + k)).length = a.length - (i + k) := List.length_drop _ _
      have hdj : (b.drop (j + k)).length = b.length - (j + k) := List.length_drop _ _
      rw [matchesTotal, hfb]
      simp only [hk, if_false]
      constructor <;> omega

theorem smMatches_le (a b : List Char) :
    smMatches a b ≤ a.length ∧ smMatches a b ≤ b.length :=
  matchesTotal_le (a.length + b.length + 1) a b

/-- The ratio is in the unit interval for every pair of inputs. -/
theorem smRatioOf_unit (a b : List Char) :
    0 ≤ smRatioOf a b ∧ smRatioOf a b ≤ 1 := by
  rw [smRatioOf]
  by_cases hz : a.length + b.length = 0
  · simp [hz]
  · simp only [hz, if_false]
    obtain ⟨h1, h2⟩ := smMatches_le a b
    have hpos : (0 : ℚ) < (a.length : ℚ) + (b.length : ℚ) := by
      have : 0 < a.length + b.length := Nat.pos_of_ne_zero hz
      exact_mod_cast this
    constructor
    · apply div_nonneg _ (le_of_lt hpos)
      positivity
    · rw [div_le_one hpos]
      have : 2 * smMatches a b ≤ a.length + b.length := by omega
      exact_mod_cast this

theorem similarity_unit (s1 s2 : String) :
    0 ≤ similarity s1 s2 ∧ similarity s1 s2 ≤ 1 :=
  smRatioOf_unit (normQuery s1) (normQuery s2)

/-! #### Characterization of the fold inside `search_similar` -/

theorem searchAux_spec (q : String) (θ : ℚ) :
    ∀ (l : List HistoryEntry) (best : Option HistoryEntry) (bs : ℚ),
      (searchAux q θ l best bs = best ∧
        ∀ e ∈ l, similarity q e.query ≤ bs ∨ similarity q e.query < θ) ∨
      (∃ l₁ e l₂, l = l₁ ++ e :: l₂ ∧
        searchAux q θ l best bs = some e ∧
        bs < similarity q e.query ∧ θ ≤ similarity q e.query ∧
        (∀ e' ∈ l₁, similarity q e'.query < similarity q e.query ∨
          similarity q e'.query ≤ bs ∨ similarity q e'.query < θ) ∧
        (∀ e' ∈ l₂, similarity q e'.query ≤ similarity q e.query ∨
          similarity q e'.query < θ)) := by
  intro l
  induction l with
  | nil => intro best bs; left; exact ⟨rfl, by simp⟩
  | cons a rest ih =>
    intro best bs
    by_cases hc : bs < similarity q a.query ∧ θ ≤ similarity q a.query
    · have hstep : searchAux q θ (a :: rest) best bs =
          searchAux q θ rest (some a) (similarity q a.query) := by
        rw [searchAux, if_pos hc]
      rcases ih (some a) (similarity q a.query) with ⟨heq, hall⟩ | ⟨l₁, e, l₂, hsplit, heq, hlt, hθ, h₁, h₂⟩
      · right
        refine ⟨[], a, rest, by simp, by rw [hstep, heq], hc.1, hc.2, by simp, ?_⟩
        intro e' he'
        exact hall e' he'
      · right
        refine ⟨a :: l₁, e, l₂, by rw [hsplit]; rfl, by rw [hstep, heq], lt_trans hc.1 hlt, hθ, ?_, h₂⟩
        intro e' he'
        rcases List.mem_cons.mp he' with rfl | hmem
        · exact Or.inl hlt
        · rcases h₁ e' hmem with h | h | h
          · exact Or.inl h
          · exact Or.inl (lt_of_le_of_lt h hlt)
          · exact Or.inr (Or.inr h)
    · have hstep : searchAux q θ (a :: rest) best bs =
          searchAux q θ rest best bs := by
        rw [searchAux, if_neg hc]
      have hα : similarity q a.query ≤ bs ∨ similarity q a.query < θ := by
        rcases not_and_or.mp hc with h | h
        · exact Or.inl (le_of_not_lt h)
        · exact Or.inr (lt_of_not_le h)
      rcases ih best bs with ⟨heq, hall⟩ | ⟨l₁, e, l₂, hsplit, heq, hlt, hθ, h₁, h₂⟩
      · left
        refine ⟨by rw [hstep, heq], ?_⟩
        intro e' he'
        rcases List.mem_cons.mp he' with rfl | hmem
        · exact hα
        · exact hall e' hmem
      · right
        refine ⟨a :: l₁, e, l₂, by rw [hsplit]; rfl, by rw [hstep, heq], hlt, hθ, ?_, h₂⟩
        intro e' he'
        rcases List.mem_cons.mp he' with rfl | hmem
        · rcases hα with h | h
          · exact Or.inr (Or.inl h)
          · exact Or.inr (Or.inr h)
        · exact h₁ e' hmem

/-! ### Persistence of the history store (agent.py lines 26-43, 65-74)

`_save` rewrites the whole store as one JSON array of
`(query, answer, timestamp)` objects, `_load` reads it back. The file
content is embedded at the level of the JSON value written; `add`
appends one entry (its timestamp supplied here as an input, since
`datetime.now` is external) and persists. -/

/-- JSON values as far as the history store uses them. -/
inductive Json where
  | str (s : String)
  | arr (xs : List Json)
  | obj (fields : List (String × Json))

/-- Key lookup in a JSON object. -/
def jLookup : List (String × Json) → String → Option Json
  | [], _ => none
  | (k, v) :: rest, key => if k = key then some v else jLookup rest key

/-- The dict built by `ConversationHistory.add` (agent.py lines 67-71). -/
def encodeEntry (e : HistoryEntry) : Json :=
  .obj [("query", .str e.query), ("answer", .str e.answer), ("timestamp", .str e.timestamp)]

/-- Reading one stored dict back as an entry. -/
def decodeEntry : Json → Option HistoryEntry
  | .obj fields =>
    match jLookup fields "query", jLookup fields "answer", jLookup fields "timestamp" with
    | some (.str q), some (.str a), some (.str t) => some ⟨q, a, t⟩
    | _, _, _ => none
  | _ => none

/-- `_save`: the JSON value `json.dump` writes for the whole store. -/
def saveHistory (h : List HistoryEntry) : Json :=
  .arr (h.map encodeEntry)

/-- `_load`: reading the persisted value back into the entry list. -/
def loadHistory : Json → Option (List HistoryEntry)
  | .arr xs => xs.mapM decodeEntry
  | _ => none

/-- `ConversationHistory.add`: append the new entry to the in-memory
store (persistence then rewrites the whole store). -/
def addEntry (h : List HistoryEntry) (q a t : String) : List HistoryEntry :=
  h ++ [⟨q, a, t⟩]

/-- Record a batch of `(query, answer, timestamp)` conversations in
order via `add`. -/
def recordAll (h : List HistoryEntry) : List (String × String × String) → List HistoryEntry
  | [] => h
  | (q, a, t) :: rest => recordAll (addEntry h q a t) rest

theorem decodeEntry_encodeEntry (e : HistoryEntry) :
    decodeEntry (encodeEntry e) = some e := by
  rfl

theorem loadHistory_saveHistory (h : List HistoryEntry) :
    loadHistory (saveHistory h) = some h := by
  induction h with
  | nil => rfl
  | cons e rest ih =>
    simp only [saveHistory, loadHistory, List.map_cons, List.mapM_cons,
      decodeEntry_encodeEntry] at ih ⊢
    rw [ih]
    rfl

theorem recordAll_append (items : List (String × String × String)) :
    ∀ h, recordAll h items = h ++ items.map fun it => ⟨it.1, it.2.1, it.2.2⟩ := by
  induction items with
  | nil => intro h; simp [recordAll]
  | cons it rest ih =>
    intro h
    rcases it with ⟨q, a, t⟩
    rw [recordAll, ih, addEntry]
    simp

/-! ### Claims C8 and C9 about the history cache -/

def entryB : HistoryEntry := ⟨"b", "x", "t"⟩

def entryAbc : HistoryEntry := ⟨"abc", "cached answer", "t0"⟩

theorem similarity_a_b : similarity "a" entryB.query = 0 := by
  have hM : smMatches (normQuery "a") (normQuery entryB.query) = 0 := by decide
  have h1 : (normQuery "a").length = 1 := by decide
  have h2 : (normQuery entryB.query).length = 1 := by decide
  rw [similarity, smRatioOf, hM, h1, h2]
  norm_num

theorem similarity_ABCsp_abc : similarity "ABC " entryAbc.query = 1 := by
  have hM : smMatches (normQuery "ABC ") (normQuery entryAbc.query) = 3 := by decide
  have h1 : (normQuery "ABC ").length = 3 := by decide
  have h2 : (normQuery entryAbc.query).length = 3 := by decide
  rw [similarity, smRatioOf, hM, h1, h2]
  norm_num

theorem search_similar_entryAbc :
    search_similar [entryAbc] "ABC " (3 / 4) = some entryAbc := by
  rw [search_similar, searchAux,
    if_pos (by rw [similarity_ABCsp_abc]; norm_num), searchAux]

/-- C8 is refuted as stated: at threshold `0`, the stored entry `"b"`
scores exactly `0` against the query `"a"`, which is at-or-above the
threshold and trivially the highest score in the store, yet
`search_similar` returns none — an entry is only ever returned when its
score strictly exceeds the initial best score `0.0`. -/
theorem C8_search_similar_counterexample :
    (0 : ℚ) ≤ similarity "a" entryB.query ∧
    search_similar [entryB] "a" 0 = none := by
  constructor
  · rw [similarity_a_b]
  · rw [search_similar, searchAux, if_neg (by rw [similarity_a_b]; simp), searchAux]

/-- C8 (amended): every score is a ratio in `[0, 1]`; when
`search_similar` returns an entry, that entry's score is at or above
the threshold, *strictly positive*, strictly larger than the score of
every earlier entry (so ties resolve to the first entry attaining the
highest score, and the entry is a maximum among qualifying scores), and
no later entry both qualifies and strictly beats it; when it returns
none, every stored entry either misses the threshold or has score `0`
(a zero-score entry is never returned, even at threshold `0`, because
the best-score accumulator starts at `0.0` and is only beaten
strictly). -/
theorem C8_search_similar_characterization (h : List HistoryEntry) (q : String) (θ : ℚ) :
    (∀ e ∈ h, 0 ≤ similarity q e.query ∧ similarity q e.query ≤ 1) ∧
    (∀ e, search_similar h q θ = some e →
      θ ≤ similarity q e.query ∧ 0 < similarity q e.query ∧
      ∃ l₁ l₂, h = l₁ ++ e :: l₂ ∧
        (∀ e' ∈ l₁, similarity q e'.query < similarity q e.query) ∧
        (∀ e' ∈ l₂, similarity q e'.query ≤ similarity q e.query ∨
          similarity q e'.query < θ)) ∧
    (search_similar h q θ = none →
      ∀ e ∈ h, similarity q e.query < θ ∨ similarity q e.query ≤ 0) := by
  refine ⟨fun e _ => similarity_unit q e.query, ?_, ?_⟩
  · intro e hsome
    rw [search_similar] at hsome
    rcases searchAux_spec q θ h none 0 with ⟨heq, -⟩ | ⟨l₁, e', l₂, hsplit, heq, hlt, hθ, h₁, h₂⟩
    · rw [heq] at hsome
      exact absurd hsome (by simp)
    · rw [heq] at hsome
      obtain rfl : e' = e := by injection hsome
      refine ⟨hθ, hlt, l₁, l₂, hsplit, ?_, h₂⟩
      intro e' he'
      rcases h₁ e' he' with hcase | hcase | hcase
      · exact hcase
      · exact lt_of_le_of_lt hcase hlt
      · exact lt_of_lt_of_le hcase hθ
  · intro hnone
    rw [search_similar] at hnone
    rcases searchAux_spec q θ h none 0 with ⟨-, hall⟩ | ⟨l₁, e', l₂, -, heq, -, -, -, -⟩
    · intro e he
      rcases hall e he with hcase | hcase
      · exact Or.inr hcase
      · exact Or.inl hcase
    · rw [heq] at hnone
      exact absurd hnone (by simp)

/-- Witness for C8 (amended): a case- and whitespace-variant query
matches the single stored entry with score `1`, which is returned as
the first (and only) maximal qualifying entry at threshold `3/4`. -/
theorem C8_search_similar_characterization_witness :
    (3 / 4 : ℚ) ≤ similarity "ABC " entryAbc.query ∧
    0 < similarity "ABC " entryAbc.query ∧
    ∃ l₁ l₂, [entryAbc] = l₁ ++ entryAbc :: l₂ ∧
      (∀ e' ∈ l₁, similarity "ABC " e'.query < similarity "ABC " entryAbc.query) ∧
      (∀ e' ∈ l₂, similarity "ABC " e'.query ≤ similarity "ABC " entryAbc.query ∨
        similarity "ABC " e'.query < 3 / 4) :=
  (C8_search_similar_characterization [entryAbc] "ABC " (3 / 4)).2.1 entryAbc
    search_similar_entryAbc

/-- C9: recording any batch of `(query, answer, timestamp)` pairs into
an empty store and reloading the persisted JSON value reproduces the
same entries, in order, with identical fields. -/
theorem C9_history_roundtrip (items : List (String × String × String)) :
    loadHistory (saveHistory (recordAll [] items)) =
      some (items.map fun it => ⟨it.1, it.2.1, it.2.2⟩) := by
  rw [recordAll_append, List.nil_append, loadHistory_saveHistory]

end AgentSpec
